import Mathlib

/-!
Verification of the WSO records scraper (memohnsen/wso_sheets_scraper).

The Python sources are shallowly embedded: each scraper module gets a
namespace (`Scraper` for scraper.py, `Florida`, `NewJersey`, `PAWV`,
`GAPNW`, `TNKY`), and the string manipulation done by Python's `str`
methods and the regular expressions used by the code are modelled by
hand-rolled, structurally recursive functions over `List Char`, so that
every definition evaluates inside the kernel.  Python `float` values are
modelled as exact rationals (`ℚ`, built by a single `mkRat`), `None` as
`Option.none`, and raised exceptions as `Except`.
-/

namespace WSO

/-! ## Character and string utilities (Python `str` semantics, ASCII) -/

/-- Python `str.lower` for ASCII characters. -/
def lowCh (c : Char) : Char :=
  if 'A' ≤ c ∧ c ≤ 'Z' then Char.ofNat (c.toNat + 32) else c

/-- Python `str.upper` for ASCII characters. -/
def upCh (c : Char) : Char :=
  if 'a' ≤ c ∧ c ≤ 'z' then Char.ofNat (c.toNat - 32) else c

/-- Whitespace as recognised by Python `str.strip` / `str.split` (ASCII). -/
def isWs (c : Char) : Bool :=
  c = ' ' ∨ c = '\t' ∨ c = '\n' ∨ c = '\r'

/-- ASCII decimal digit. -/
def isDig (c : Char) : Bool :=
  '0' ≤ c ∧ c ≤ '9'

/-- Python `str.lower`. -/
def lowStr (s : String) : String := ⟨s.data.map lowCh⟩

/-- Python `str.upper`. -/
def upStr (s : String) : String := ⟨s.data.map upCh⟩

/-- Python `str.strip` (both ends). -/
def stripCl (l : List Char) : List Char :=
  ((l.dropWhile isWs).reverse.dropWhile isWs).reverse

/-- Python `str.strip` on strings. -/
def stripStr (s : String) : String := ⟨stripCl s.data⟩

/-- Test whether `pat` occurs at the start of `l`. -/
def isPre : List Char → List Char → Bool
  | [], _ => true
  | _ :: _, [] => false
  | a :: as, b :: bs => a = b && isPre as bs

/-- Python `pat in s` (substring containment) on char lists. -/
def hasSubCl (pat : List Char) : List Char → Bool
  | [] => pat.isEmpty
  | c :: rest => isPre pat (c :: rest) || hasSubCl pat rest

/-- Python `pat in s` (substring containment). -/
def hasSubStr (pat s : String) : Bool := hasSubCl pat.data s.data

/-- Python `s.startswith(pat)`. -/
def startsWithStr (pat s : String) : Bool := isPre pat.data s.data

/-- Python `s.endswith("+")`: the last character is `'+'`. -/
def endsWithPlus (s : String) : Bool := s.data.getLast? = some '+'

/-- Fuel-driven worker for `splitOnStr`; consumes at least one character
per step, so `fuel = length` suffices. -/
def splitOnGo (sep : List Char) : Nat → List Char → List Char → List (List Char)
  | 0, l, cur => [cur.reverse ++ l]
  | _ + 1, [], cur => [cur.reverse]
  | n + 1, c :: rest, cur =>
    if sep ≠ [] ∧ isPre sep (c :: rest) then
      cur.reverse :: splitOnGo sep n (rest.drop (sep.length - 1)) []
    else
      splitOnGo sep n rest (c :: cur)

/-- Python `s.split(sep)` for a non-empty separator. -/
def splitOnStr (sep s : String) : List String :=
  (splitOnGo sep.data s.data.length s.data []).map (⟨·⟩)

/-- Python `s.split()` (whitespace split, empty pieces removed). -/
def splitWsGo : List Char → List Char → List (List Char)
  | [], cur => if cur.isEmpty then [] else [cur.reverse]
  | c :: rest, cur =>
    if isWs c then
      if cur.isEmpty then splitWsGo rest [] else cur.reverse :: splitWsGo rest []
    else
      splitWsGo rest (c :: cur)

/-- Python `s.split()` on strings. -/
def splitWsStr (s : String) : List String := (splitWsGo s.data []).map (⟨·⟩)

/-- Python `s.replace(old, new, 1)` worker (first occurrence only). -/
def replFirstGo (old new : List Char) : Nat → List Char → List Char
  | 0, l => l
  | _ + 1, [] => []
  | n + 1, c :: rest =>
    if isPre old (c :: rest) then new ++ rest.drop (old.length - 1)
    else c :: replFirstGo old new n rest

/-- Python `s.replace(old, new, 1)` for a non-empty `old`. -/
def replFirstStr (old new s : String) : String :=
  ⟨replFirstGo old.data new.data s.data.length s.data⟩

/-- Python `s.replace(old, "")` for the single-character `old = ">"`:
removes every occurrence. -/
def removeGtStr (s : String) : String := ⟨s.data.filter (fun c => c ≠ '>')⟩

/-- Python `word.isdigit()` (ASCII): non-empty and all digits. -/
def isDigitWord (s : String) : Bool := ¬ s.data.isEmpty ∧ s.data.all isDig

/-- Numeric value of a list of digit characters. -/
def digitsVal (l : List Char) : Nat :=
  l.foldl (fun n c => n * 10 + (c.toNat - 48)) 0

/-- Cell access `row[i]` with Python's length guard: `row[i] if len(row) > i else ""`. -/
def cellAt (row : List String) (i : Nat) : String := row.getD i ""

/-! ## Python `float` literals and `int(float(_))`

Python `float(s)` on the decimal-literal subset actually occurring in the
sheets (optional sign, digits, at most one decimal point) is modelled as
an exact rational.  Exotic accepted spellings (exponents, `inf`, `nan`,
underscores) are outside the model and map to `none`, as do all strings
Python rejects with `ValueError`. -/

/-- Split a character list at the first `'.'`; `none` if more than one
dot is present. -/
def splitDot (l : List Char) : Option (List Char × List Char) :=
  match splitOnGo ['.'] l.length l [] with
  | [ip] => some (ip, [])
  | [ip, fp] => some (ip, fp)
  | _ => none

/-- Python `float(s)` on sign/digits/dot literals, as an exact rational. -/
def parseDec (s : String) : Option ℚ :=
  let t := stripCl s.data
  let (sgn, body) :=
    match t with
    | '-' :: rest => ((-1 : Int), rest)
    | '+' :: rest => ((1 : Int), rest)
    | rest => ((1 : Int), rest)
  match splitDot body with
  | none => none
  | some (ip, fp) =>
    if (ip ++ fp).isEmpty ∨ ¬ (ip ++ fp).all isDig then none
    else
      some (mkRat (sgn * (digitsVal ip * 10 ^ fp.length + digitsVal fp)) (10 ^ fp.length))

/-- Python `int(q)` for a float value: truncation toward zero. -/
def truncQ (q : ℚ) : Int := q.num.tdiv q.den

/-! ## Canonical record and stored record

`Rec` is the record dictionary built by the integer-valued scrapers and
compared against the database; lift values are `Option Int` (`None` =
no record established). -/

@[ext]
structure Rec where
  wso : String
  age_category : String
  gender : String
  weight_class : String
  snatch_record : Option Int
  cj_record : Option Int
  total_record : Option Int
deriving DecidableEq, Repr

/-- The natural key (organization, age_category, gender, weight_class). -/
abbrev RKey := String × String × String × String

def recKey (r : Rec) : RKey := (r.wso, r.age_category, r.gender, r.weight_class)

/-- A stored database row: opaque id plus the three lift fields. -/
structure Stored where
  id : Nat
  snatch_record : Option Int
  cj_record : Option Int
  total_record : Option Int
deriving DecidableEq, Repr

/-! ## Reconciliation engine

From `scraper_pawv.py dry_run_compare` (the same field loop appears in
every scraper's `upsert_records` / `_dry_run_comparison`): look the fresh
record up by natural key; if absent classify Insert, otherwise collect
`(field, db_val, new_val)` for each of the three lift fields whose stored
and fresh values differ, classifying Update when that list is non-empty
and Unchanged otherwise. -/

inductive Classification where
  | insert
  | update (changes : List (String × Option Int × Option Int))
  | unchanged
deriving DecidableEq, Repr

/-- The `for field in [...]` loop of `dry_run_compare`: the ordered list
of per-field diffs between the stored row and the fresh record. -/
def diffFields (db : Stored) (fresh : Rec) : List (String × Option Int × Option Int) :=
  (if db.snatch_record ≠ fresh.snatch_record then
    [("snatch_record", db.snatch_record, fresh.snatch_record)] else []) ++
  (if db.cj_record ≠ fresh.cj_record then
    [("cj_record", db.cj_record, fresh.cj_record)] else []) ++
  (if db.total_record ≠ fresh.total_record then
    [("total_record", db.total_record, fresh.total_record)] else [])

/-- Classification of one fresh record against its store lookup result. -/
def classify (fresh : Rec) (stored : Option Stored) : Classification :=
  match stored with
  | none => .insert
  | some db =>
    let changes := diffFields db fresh
    if changes.isEmpty then .unchanged else .update changes

/-- Result triple of `dry_run_compare`. -/
structure CompareResult where
  to_insert : List Rec
  to_update : List (Rec × List (String × Option Int × Option Int))
  unchanged : List Rec
deriving DecidableEq, Repr

def emptyCompareResult : CompareResult := ⟨[], [], []⟩

/-- One iteration of the `for record in records` loop of
`dry_run_compare`, with the store lookup abstracted as a function of the
natural key. -/
def compareStep (store : RKey → Option Stored) (acc : CompareResult) (r : Rec) :
    CompareResult :=
  match classify r (store (recKey r)) with
  | .insert => { acc with to_insert := acc.to_insert ++ [r] }
  | .update changes => { acc with to_update := acc.to_update ++ [(r, changes)] }
  | .unchanged => { acc with unchanged := acc.unchanged ++ [r] }

/-- Model of `dry_run_compare(records)` with the database read abstracted as a
pure lookup. -/
def dryRunCompare (records : List Rec) (store : RKey → Option Stored) : CompareResult :=
  records.foldl (compareStep store) emptyCompareResult

/-- Merge of two `CompareResult`s, used to state batch splitting. -/
def appendCompareResult (a b : CompareResult) : CompareResult :=
  ⟨a.to_insert ++ b.to_insert, a.to_update ++ b.to_update, a.unchanged ++ b.unchanged⟩

/-! ## Regular-expression searchers

The scrapers use four concrete regexes; `re.search` (leftmost match) is
modelled by trying an anchored match at every position, left to right.
Backtracking inside `\d+`/`\s*` can never rescue a failed anchored
attempt for these patterns, so maximal-munch at each position is exact. -/

/-- Anchored match of `(\d+)\s*-\s*(\d+)` at the head of `l`. -/
def matchRangeAt (l : List Char) : Option (List Char × List Char) :=
  let d1 := l.takeWhile isDig
  if d1.isEmpty then none
  else
    match (l.dropWhile isDig).dropWhile isWs with
    | '-' :: r2 =>
      let d2 := (r2.dropWhile isWs).takeWhile isDig
      if d2.isEmpty then none else some (d1, d2)
    | _ => none

def searchRangeGo : Nat → List Char → Option (List Char × List Char)
  | 0, _ => none
  | _ + 1, [] => none
  | n + 1, c :: rest =>
    match matchRangeAt (c :: rest) with
    | some p => some p
    | none => searchRangeGo n rest

/-- Model of `re.search(r'(\d+)\s*-\s*(\d+)', s)`, returning both digit groups. -/
def searchRange (s : String) : Option (String × String) :=
  (searchRangeGo s.data.length s.data).map (fun p => (⟨p.1⟩, ⟨p.2⟩))

/-- Anchored match of `(\d{2})\s*-\s*(\d{2})` at the head of `l`
(exactly two digits in each group). -/
def matchRange2At (l : List Char) : Option (List Char × List Char) :=
  match l with
  | a :: b :: r =>
    if isDig a ∧ isDig b then
      match r.dropWhile isWs with
      | '-' :: r2 =>
        match r2.dropWhile isWs with
        | x :: y :: _ => if isDig x ∧ isDig y then some ([a, b], [x, y]) else none
        | _ => none
      | _ => none
    else none
  | _ => none

def searchRange2Go : Nat → List Char → Option (List Char × List Char)
  | 0, _ => none
  | _ + 1, [] => none
  | n + 1, c :: rest =>
    match matchRange2At (c :: rest) with
    | some p => some p
    | none => searchRange2Go n rest

/-- Model of `re.search(r'(\d{2})\s*-\s*(\d{2})', s)`. -/
def searchRange2 (s : String) : Option (String × String) :=
  (searchRange2Go s.data.length s.data).map (fun p => (⟨p.1⟩, ⟨p.2⟩))

/-- Anchored match of `(\d+)\s*kg` at the head of `l`. -/
def matchKgAt (l : List Char) : Option (List Char) :=
  let d1 := l.takeWhile isDig
  if d1.isEmpty then none
  else if isPre ['k', 'g'] ((l.dropWhile isDig).dropWhile isWs) then some d1
  else none

def searchKgGo : Nat → List Char → Option (List Char)
  | 0, _ => none
  | _ + 1, [] => none
  | n + 1, c :: rest =>
    match matchKgAt (c :: rest) with
    | some p => some p
    | none => searchKgGo n rest

/-- Model of `re.search(r'(\d+)\s*kg', s)`, returning the digit group. -/
def searchKg (s : String) : Option String :=
  (searchKgGo s.data.length s.data).map (⟨·⟩)

/-- Anchored match of `\((\d+)-\d+\)` at the head of `l`. -/
def matchParenAt (l : List Char) : Option (List Char) :=
  match l with
  | '(' :: r =>
    let d1 := r.takeWhile isDig
    if d1.isEmpty then none
    else
      match r.dropWhile isDig with
      | '-' :: r2 =>
        let d2 := r2.takeWhile isDig
        if d2.isEmpty then none
        else
          match r2.dropWhile isDig with
          | ')' :: _ => some d1
          | _ => none
      | _ => none
  | _ => none

def searchParenGo : Nat → List Char → Option (List Char)
  | 0, _ => none
  | _ + 1, [] => none
  | n + 1, c :: rest =>
    match matchParenAt (c :: rest) with
    | some p => some p
    | none => searchParenGo n rest

/-- Model of `re.search(r'\((\d+)-\d+\)', s)`, returning the first digit group. -/
def searchParen (s : String) : Option String :=
  (searchParenGo s.data.length s.data).map (⟨·⟩)

/-- Python `" ".join(row)`. -/
def joinSp : List String → String
  | [] => ""
  | [c] => c
  | c :: cs => c ++ " " ++ joinSp cs

/-- Python `int(s)`: optional sign and digits only (after stripping). -/
def parsePyInt (s : String) : Option Int :=
  match stripCl s.data with
  | '-' :: ds => if ¬ ds.isEmpty ∧ ds.all isDig then some (-(digitsVal ds : Int)) else none
  | '+' :: ds => if ¬ ds.isEmpty ∧ ds.all isDig then some (digitsVal ds) else none
  | ds => if ¬ ds.isEmpty ∧ ds.all isDig then some (digitsVal ds) else none

/-! ## `scraper_florida.py` -/

namespace Florida

/-- Model of `_parse_int`: parse integer value, return `None` if invalid or 0
(Florida uses 0 for empty records). -/
def parseInt (value : String) : Option Int :=
  if value = "" then none
  else
    match WSO.parseDec value with
    | none => none
    | some q =>
      let parsed := WSO.truncQ q
      if parsed = 0 then none else some parsed

/-- The Youth lookback of `_determine_age_category`: scan the given row
indices in order for a `13 ... UNDER` or `14-17` section header. -/
def youthScan (rows : List (List String)) : List Nat → Option String
  | [] => none
  | i :: is =>
    let rowText := upStr (joinSp (rows.getD i []))
    if hasSubStr "13" rowText ∧ hasSubStr "UNDER" rowText then some "U13"
    else if hasSubStr "14-17" rowText ∨ hasSubStr "14 - 17" rowText then some "U17"
    else youthScan rows is

/-- The Masters lookback of `_determine_age_category`: scan the given
row indices for a two-digit age range like `35-39`. -/
def mastersScan (rows : List (List String)) : List Nat → Option String
  | [] => none
  | i :: is =>
    match searchRange2 (joinSp (rows.getD i [])) with
    | some (lo, _) => some ("Masters " ++ lo)
    | none => mastersScan rows is

/-- Model of `_determine_age_category`. -/
def determineAgeCategory (baseAge weightClass : String) (rowIdx : Nat)
    (allRows : List (List String)) : String :=
  if baseAge = "Youth" then
    match youthScan allRows (List.range' (rowIdx - 10) (rowIdx - (rowIdx - 10))) with
    | some cat => cat
    | none =>
      match parsePyInt ⟨weightClass.data.filter (fun c => c ≠ '+')⟩ with
      | some w => if w ≤ 65 then "U13" else "U17"
      | none => "U13"
  else if baseAge = "Masters" then
    match mastersScan allRows (List.range' (rowIdx - 5) (rowIdx - (rowIdx - 5))) with
    | some cat => cat
    | none => "Masters 35"
  else baseAge

/-- Model of `_parse_side`: parse one gender's side of a Florida weight-class
block (snatch on this row, C&J and Total on the next two). -/
def parseSide (wso : String) (startRow : List String) (colOffset : Nat)
    (gender baseAge : String) (rowIdx : Nat) (allRows : List (List String))
    (lastWeight : Option String) : Option Rec :=
  let wc0 := stripStr (cellAt startRow colOffset)
  match (if wc0 = "" then lastWeight.map (· ++ "+") else some wc0) with
  | none => none
  | some weightClass =>
    let ageCategory := determineAgeCategory baseAge weightClass rowIdx allRows
    let snatch := parseInt (stripStr (cellAt startRow (colOffset + 2)))
    let cj :=
      if rowIdx + 1 < allRows.length then
        parseInt (stripStr (cellAt (allRows.getD (rowIdx + 1) []) (colOffset + 2)))
      else none
    let total :=
      if rowIdx + 2 < allRows.length then
        parseInt (stripStr (cellAt (allRows.getD (rowIdx + 2) []) (colOffset + 2)))
      else none
    some ⟨wso, ageCategory, gender, weightClass, snatch, cj, total⟩

/-- Mutable state of the `_parse_side_by_side` scan. -/
structure SbsState where
  lastMen : Option String
  lastWomen : Option String
  recs : List Rec
deriving DecidableEq, Repr

/-- One iteration of the `while i < len(rows)` loop of
`_parse_side_by_side`. -/
def sbsStep (wso tabName : String) (allRows : List (List String))
    (st : SbsState) (iRow : Nat × List String) : SbsState :=
  let (i, row) := iRow
  if row.isEmpty ∨ row.length < 10 then st
  else
    let menLift := stripStr (cellAt row 1)
    let womenLift := stripStr (cellAt row 7)
    if menLift = "Snatch" ∨ womenLift = "Snatch" then
      let st₁ :=
        match parseSide wso row 0 "Men" tabName i allRows st.lastMen with
        | some r =>
          { st with
            recs := st.recs ++ [r]
            lastMen := if ¬ endsWithPlus r.weight_class then some r.weight_class
                       else st.lastMen }
        | none => st
      match parseSide wso row 6 "Women" tabName i allRows st₁.lastWomen with
      | some r =>
        { st₁ with
          recs := st₁.recs ++ [r]
          lastWomen := if ¬ endsWithPlus r.weight_class then some r.weight_class
                       else st₁.lastWomen }
      | none => st₁
    else st

/-- Model of `_parse_side_by_side` (`_map_age_category` is the identity on the
tab name). -/
def parseSideBySide (wso : String) (rows : List (List String)) (tabName : String) :
    List Rec :=
  (rows.enum.foldl (sbsStep wso tabName rows) ⟨none, none, []⟩).recs

/-- The per-tab loop of `scrape_sheet`: tabs with unset gids are
skipped, a tab whose fetch-and-parse raises is skipped, everything else
is concatenated.  The fetch of one tab is abstracted as
`fetchTab name gid`. -/
def scrapeSheetTabs (fetchTab : String → String → Except String (List Rec))
    (tabs : List (String × Option String)) : List Rec :=
  tabs.foldl
    (fun acc tg =>
      match tg.2 with
      | none => acc
      | some gid =>
        match fetchTab tg.1 gid with
        | .ok rs => acc ++ rs
        | .error _ => acc)
    []

end Florida

/-! ## `scraper_newjersey.py` -/

namespace NewJersey

/-- Model of `_parse_int`: parse integer value, return `None` if invalid or 0
(same code as Florida's). -/
def parseInt (value : String) : Option Int :=
  if value = "" then none
  else
    match WSO.parseDec value with
    | none => none
    | some q =>
      let parsed := WSO.truncQ q
      if parsed = 0 then none else some parsed

/-- Model of `_parse_single_side`: parse one gender's columns of a New Jersey
row (one row per weight class; a blank weight cell after a tracked
closed class becomes the open `+` class). -/
def parseSingleSide (wso : String) (row : List String) (colOffset : Nat)
    (gender ageCategory : String) (lastWeight : Option String) : Option Rec :=
  let wc0 := stripStr (cellAt row colOffset)
  match (if wc0 = "" then lastWeight.map (· ++ "+") else some wc0) with
  | none => none
  | some weightClass =>
    let snatch := parseInt (stripStr (cellAt row (colOffset + 3)))
    let cj := parseInt (stripStr (cellAt row (colOffset + 4)))
    let total := parseInt (stripStr (cellAt row (colOffset + 5)))
    some ⟨wso, ageCategory, gender, weightClass, snatch, cj, total⟩

/-- Mutable state of the `_parse_side_by_side` scan. -/
structure NjState where
  lastWomen : Option String
  lastMen : Option String
  recs : List Rec
deriving DecidableEq, Repr

/-- The `if record['weight_class'] and not ...endswith('+')` update of
the per-gender last-closed-weight tracker. -/
def updateLast (last : Option String) (r : Rec) : Option String :=
  if r.weight_class ≠ "" ∧ ¬ endsWithPlus r.weight_class then some r.weight_class
  else last

/-- One iteration of the row loop of `_parse_side_by_side`
(`Masters 80` is a men-only tab whose data sits in the left columns). -/
def njStep (wso tabName : String) (st : NjState) (iRow : Nat × List String) : NjState :=
  let (i, row) := iRow
  if row.isEmpty ∨ row.length < 14 then st
  else if i = 0 then st
  else if tabName = "Masters 80" then
    match parseSingleSide wso row 1 "Men" tabName st.lastMen with
    | some r =>
      { st with
        recs := st.recs ++ [r]
        lastMen := updateLast st.lastMen r }
    | none => st
  else
    let st₁ :=
      match parseSingleSide wso row 1 "Women" tabName st.lastWomen with
      | some r =>
        { st with
          recs := st.recs ++ [r]
          lastWomen := updateLast st.lastWomen r }
      | none => st
    match parseSingleSide wso row 8 "Men" tabName st₁.lastMen with
    | some r =>
      { st₁ with
        recs := st₁.recs ++ [r]
        lastMen := updateLast st₁.lastMen r }
    | none => st₁

/-- Model of `_parse_side_by_side` (`_map_age_category` is the identity on the
tab name). -/
def parseSideBySide (wso : String) (rows : List (List String)) (tabName : String) :
    List Rec :=
  (rows.enum.foldl (njStep wso tabName) ⟨none, none, []⟩).recs

/-- Python `max` over the non-`None` values of a lift field
(the list comprehension plus `max(...) if ... else None` of
`_consolidate_records`). -/
def bestLift (vs : List (Option Int)) : Option Int :=
  match vs.filterMap id with
  | [] => none
  | v :: rest => some (rest.foldl max v)

/-- Fold form of Python `max` over an optional accumulator; proof
device used to show `bestLift` is invariant under permutation. -/
def optMaxStep (acc : Option Int) (x : Int) : Option Int :=
  some (match acc with | none => x | some m => max m x)

/-- The keys of the `defaultdict` grouping of `_consolidate_records`,
in first-occurrence order (Python dict insertion order). -/
def keysOf (l : List Rec) : List RKey :=
  l.foldl (fun ks r => if recKey r ∈ ks then ks else ks ++ [recKey r]) []

/-- The group collected for one key (the `defaultdict` bucket:
records with that key, in input order). -/
def groupOf (l : List Rec) (k : RKey) : List Rec :=
  l.filter (fun r => recKey r = k)

/-- The per-group branch of `_consolidate_records`: a single record
passes through unchanged, otherwise the three lift fields are merged by
taking the max over non-`None` contributions. -/
def mergeGroup (k : RKey) (g : List Rec) : Rec :=
  match g with
  | [r] => r
  | _ =>
    { wso := k.1, age_category := k.2.1, gender := k.2.2.1, weight_class := k.2.2.2,
      snatch_record := bestLift (g.map (·.snatch_record)),
      cj_record := bestLift (g.map (·.cj_record)),
      total_record := bestLift (g.map (·.total_record)) }

/-- Model of `_consolidate_records`. -/
def consolidateRecords (l : List Rec) : List Rec :=
  (keysOf l).map (fun k => mergeGroup k (groupOf l k))

/-- The per-tab loop of New Jersey's `scrape_sheet` (identical tab
isolation to Florida's), followed by `_consolidate_records`. -/
def scrapeSheetTabs (fetchTab : String → String → Except String (List Rec))
    (tabs : List (String × Option String)) : List Rec :=
  tabs.foldl
    (fun acc tg =>
      match tg.2 with
      | none => acc
      | some gid =>
        match fetchTab tg.1 gid with
        | .ok rs => acc ++ rs
        | .error _ => acc)
    []

/-- Model of `scrape_sheet`: tab loop then consolidation. -/
def scrapeSheet (fetchTab : String → String → Except String (List Rec))
    (tabs : List (String × Option String)) : List Rec :=
  consolidateRecords (scrapeSheetTabs fetchTab tabs)

end NewJersey

/-! ## `scraper_pawv.py` (tab loop and `_parse_int`; the age normalizer
comes further down with the other normalizers) -/

namespace PAWV

/-- Model of `_parse_int`: `None` on empty, whitespace or the `STANDARD`
placeholder, otherwise `int(float(...))` — zero is kept. -/
def parseInt (value : String) : Option Int :=
  if value = "" ∨ stripStr value = "" ∨ upStr (stripStr value) = "STANDARD" then none
  else (WSO.parseDec (stripStr value)).map WSO.truncQ

/-- Model of `scrape_all_tabs`: sequential scrape of the configured
(gender, base age, gid) tabs with **no** exception handling — the first
tab whose scrape raises aborts the whole run, discarding every record
already collected. -/
def scrapeAllTabs (scrapeTab : String → String → String → Except String (List Rec)) :
    List (String × String × String) → Except String (List Rec)
  | [] => .ok []
  | (gender, baseAge, gid) :: rest =>
    match scrapeTab gender baseAge gid with
    | .error e => .error e
    | .ok rs =>
      match scrapeAllTabs scrapeTab rest with
      | .error e => .error e
      | .ok more => .ok (rs ++ more)

end PAWV

/-! ## `scraper_ga_pnw.py` (flat-row family: Georgia, DMV, Pacific NW) -/

namespace GAPNW

/-- One `csv.DictReader` row of the flat format, restricted to the six
columns the scraper reads (`row.get(name, '')`). -/
structure CsvRow where
  ageGroup : String
  gender : String
  bodyWeightMin : String
  bodyWeightMax : String
  lift : String
  record : String
deriving DecidableEq, Repr

/-- Model of the `[MW]` digits-and-suffix `re.match` (case-insensitive): leading `M`/`W`
(either case), at least one digit, and the remaining suffix. -/
def mwMatch (s : String) : Option (String × String) :=
  match s.data with
  | c :: rest =>
    if c = 'M' ∨ c = 'W' ∨ c = 'm' ∨ c = 'w' then
      let ds := rest.takeWhile isDig
      if ds.isEmpty then none else some (⟨ds⟩, ⟨rest.dropWhile isDig⟩)
    else none
  | [] => none

/-- Model of `_normalize_age_group`: `JR*` → `Junior*`, `OPEN*` → `Senior*`,
`M35`/`W35`-style → `Masters 35` (suffix preserved), otherwise
unchanged. -/
def normalizeAgeGroup (ageGroup0 : String) : String :=
  let ageGroup := stripStr ageGroup0
  let agUp := upStr ageGroup
  if startsWithStr "JR" agUp then
    replFirstStr "jr" "Junior" (replFirstStr "JR" "Junior" ageGroup)
  else if startsWithStr "OPEN" agUp then
    "Senior" ++ ⟨ageGroup.data.drop 4⟩
  else
    match mwMatch ageGroup with
    | some (digits, suffix) => "Masters " ++ digits ++ suffix
    | none => ageGroup

/-- Weight-class derivation of the row loop: an empty max with a set min
means an open top class (`min+`); a set max is used directly, a `>`
marker in it being stripped and turned into a `+` suffix; rows with
neither are dropped. -/
def deriveWeightClass (weightMin weightMax : String) : Option String :=
  if weightMax = "" ∧ weightMin ≠ "" then some (weightMin ++ "+")
  else if weightMax ≠ "" then
    some (if hasSubStr ">" weightMax then removeGtStr weightMax ++ "+" else weightMax)
  else none

/-- The three lift slots of a grouped entry. -/
inductive LiftCol where
  | snatch
  | cj
  | total
deriving DecidableEq, Repr

/-- The case-insensitive lift-type dispatch of the row loop. -/
def liftColOf (liftType : String) : Option LiftCol :=
  let l := lowStr liftType
  if l = "snatch" then some .snatch
  else if l = "clean & jerk" ∨ l = "clean and jerk" ∨ l = "c&j" ∨ l = "cleanjerk" then
    some .cj
  else if l = "total" then some .total
  else none

/-- Parsing of `record_int`: `None` for an empty cell, `int(float(...))` when that
parses, `None` on `ValueError`. -/
def parseRecordVal (recordValue : String) : Option Int :=
  if recordValue = "" then none
  else
    match WSO.parseDec recordValue with
    | some q => some (WSO.truncQ q)
    | none => none

/-- Grouping key: (normalized age group, gender, weight class). -/
abbrev GKey := String × String × String

/-- The `{'snatch': ..., 'cj': ..., 'total': ...}` bucket. -/
structure Lifts where
  snatch : Option Int
  cj : Option Int
  total : Option Int
deriving DecidableEq, Repr

def emptyLifts : Lifts := ⟨none, none, none⟩

def setLiftCol (ls : Lifts) : LiftCol → Option Int → Lifts
  | .snatch, v => { ls with snatch := v }
  | .cj, v => { ls with cj := v }
  | .total, v => { ls with total := v }

def getLiftCol (ls : Lifts) : LiftCol → Option Int
  | .snatch => ls.snatch
  | .cj => ls.cj
  | .total => ls.total

/-- What one CSV row contributes to the grouping: `none` when the row is
skipped (empty identity cells, unknown gender code, adaptive age group,
no weight bounds, unknown lift type), otherwise the key, the lift slot
and the parsed value (itself possibly `none`). -/
def rowContribution (row : CsvRow) : Option (GKey × LiftCol × Option Int) :=
  let ageGroupRaw := stripStr row.ageGroup
  let genderRaw := stripStr row.gender
  let weightMin := stripStr row.bodyWeightMin
  let weightMax := stripStr row.bodyWeightMax
  let liftType := stripStr row.lift
  let recordValue := stripStr row.record
  if ageGroupRaw = "" ∨ genderRaw = "" then none
  else
    match (if genderRaw = "F" then some "Women"
           else if genderRaw = "M" then some "Men" else none) with
    | none => none
    | some gender =>
      let ageGroup := normalizeAgeGroup ageGroupRaw
      if hasSubStr "ADAP" ageGroup then none
      else
        match deriveWeightClass weightMin weightMax with
        | none => none
        | some weightClass =>
          match liftColOf liftType with
          | none => none
          | some col => some ((ageGroup, gender, weightClass), col, parseRecordVal recordValue)

/-- Update `grouped[key][slot] = value` on the insertion-ordered association
list modelling the `defaultdict` (a fresh key is appended with the other
two slots `None`). -/
def updateGrouped (g : List (GKey × Lifts)) (k : GKey) (col : LiftCol) (v : Option Int) :
    List (GKey × Lifts) :=
  match g with
  | [] => [(k, setLiftCol emptyLifts col v)]
  | (k', ls) :: rest =>
    if k' = k then (k', setLiftCol ls col v) :: rest
    else (k', ls) :: updateGrouped rest k col v

/-- One iteration of the `for row in csv_data` loop. -/
def processRow (g : List (GKey × Lifts)) (row : CsvRow) : List (GKey × Lifts) :=
  match rowContribution row with
  | none => g
  | some (k, col, v) => updateGrouped g k col v

/-- Conversion of one grouped entry to the emitted record dictionary. -/
def recOfEntry (wso : String) (kl : GKey × Lifts) : Rec :=
  { wso := wso, age_category := kl.1.1, gender := kl.1.2.1, weight_class := kl.1.2.2,
    snatch_record := kl.2.snatch, cj_record := kl.2.cj, total_record := kl.2.total }

/-- The parsing core of `scrape_sheet`: group all rows, then emit one
record per key. -/
def scrapeRows (wso : String) (rows : List CsvRow) : List Rec :=
  (rows.foldl processRow []).map (recOfEntry wso)

/-- What one CSV row contributes to a given key and lift slot, if
anything: `some v` when the row survives all skip rules, normalizes to
exactly that key and that lift slot, and parses to the value `v`
(possibly `none`). -/
def contributionsFor (rows : List CsvRow) (k : GKey) (col : LiftCol) : List (Option Int) :=
  rows.filterMap (fun row =>
    match rowContribution row with
    | some (k', col', v) => if k' = k ∧ col' = col then some v else none
    | none => none)

/-- Lookup of the grouped bucket for a key (Python `key in grouped` plus
`grouped[key]`). -/
def lookupG (g : List (GKey × Lifts)) (k : GKey) : Option Lifts :=
  (g.find? (fun kl => kl.1 = k)).map (·.2)

/-- The (age group, gender, weight class) triple of an emitted record. -/
def keyTriple (r : Rec) : GKey := (r.age_category, r.gender, r.weight_class)

/-- Projection of the lift field named by a slot. -/
def liftField : LiftCol → Rec → Option Int
  | .snatch, r => r.snatch_record
  | .cj, r => r.cj_record
  | .total, r => r.total_record

end GAPNW

/-! ## `scraper_tnky.py` (age normalizer) -/

namespace TNKY

/-- Model of `_normalize_age_category`: extract `(age category, gender)` from an
upper-cased section header, or `(None, None)`. -/
def normalizeAgeCategory (sectionHeader : String) : Option String × Option String :=
  let header := upStr (stripStr sectionHeader)
  match (if hasSubStr "WOMEN" header then some "Women"
         else if hasSubStr "MEN" header then some "Men" else none) with
  | none => (none, none)
  | some gender =>
    if hasSubStr "13" header ∧ hasSubStr "UNDER" header then (some "U13", some gender)
    else if hasSubStr "14-17" header ∨ hasSubStr "14 - 17" header then (some "U17", some gender)
    else if hasSubStr "SENIOR" header then (some "Senior", some gender)
    else if hasSubStr "JUNIOR" header then (some "Junior", some gender)
    else if hasSubStr "MASTER" header then
      match searchRange header with
      | some (lo, _) => (some ("Masters " ++ lo), some gender)
      | none => (none, none)
    else (none, none)

end TNKY

/-! ## `scraper_pawv.py` age normalizer -/

namespace PAWV

/-- Model of `_normalize_age_category`: youth section headers are matched against
the three fixed bands, Masters headers need a parenthesized range, and
Junior/Senior tabs fall back to the base age. -/
def normalizeAgeCategory (sectionHeader baseAge : String) : Option String :=
  let header := stripStr sectionHeader
  if hasSubStr "13" header ∧ hasSubStr "Under" header then some "U13"
  else if hasSubStr "14-15" header ∨ hasSubStr "14 - 15" header then some "U15"
  else if hasSubStr "16-17" header ∨ hasSubStr "16 - 17" header then some "U17"
  else if hasSubStr "Masters" header then
    match searchParen header with
    | some lo => some ("Masters " ++ lo)
    | none => if baseAge = "Junior" ∨ baseAge = "Senior" then some baseAge else none
  else if baseAge = "Junior" ∨ baseAge = "Senior" then some baseAge
  else none

end PAWV

/-! ## `scraper.py` (vertical single-column family) -/

namespace Scraper

/-- A record as built by `scraper.py`: lift values are Python floats,
modelled as exact rationals. -/
structure VRec where
  wso : String
  age_category : String
  gender : String
  weight_class : String
  snatch_record : Option ℚ
  cj_record : Option ℚ
  total_record : Option ℚ
deriving DecidableEq, Repr

/-- The five mutable scan variables of `_parse_tab_data` plus the
accumulated records. -/
structure VState where
  age : Option String
  wc : Option String
  snatch : Option ℚ
  cj : Option ℚ
  total : Option ℚ
  recs : List VRec
deriving DecidableEq, Repr

/-- Python truthiness of a `str`-or-`None` variable. -/
def truthyOpt : Option String → Bool
  | none => false
  | some s => s ≠ ""

/-- Model of `save_current_record`: append a record if both the weight class and
the age subdivision are set. -/
def saveCurrent (wso gender : String) (st : VState) : VState :=
  if truthyOpt st.wc ∧ truthyOpt st.age then
    { st with recs := st.recs ++
        [⟨wso, st.age.getD "", gender, st.wc.getD "", st.snatch, st.cj, st.total⟩] }
  else st

/-- Model of `parse_age_subdivision` (closure over the tab's base age category).
The Python code guards each `split` with an `in` test; the guard is
redundant because a two-element split result implies the separator
occurs, so the branches are encoded directly on the split. -/
def parseAgeSubdivision (ageCategory text0 : String) : String :=
  let text := stripStr text0
  if hasSubStr "and under" (lowStr text) then
    "U" ++ ((splitWsStr text).headD "")
  else
    let viaRange : Option String :=
      if ageCategory = "Masters" then
        match splitOnStr "-" text with
        | [a, _] => some ("Masters " ++ stripStr a)
        | _ =>
          match splitOnStr " - " text with
          | [a, _] => some ("Masters " ++ stripStr a)
          | _ => none
      else
        match splitOnStr "-" text with
        | [_, b] => some ("U" ++ stripStr b)
        | _ =>
          match splitOnStr " - " text with
          | [_, b] => some ("U" ++ stripStr b)
          | _ => none
    match viaRange with
    | some r => r
    | none => if lowStr text = "total" then "Total" else text

/-- The `i == 0 and "lift" in first_col.lower()` merged-header branch:
extract an age subdivision from an `N and under` phrase or an `A - B`
range, and a weight class from an `N kg` token. -/
def firstRowHeader (firstCol : String) (st : VState) : VState :=
  let lower := lowStr firstCol
  let st₁ :=
    if hasSubStr "and under" lower then
      let words := splitWsStr (stripStr ((splitOnStr "and under" lower).headD ""))
      match words.reverse.find? (fun w => isDigitWord w) with
      | some w => { st with age := some ("U" ++ w) }
      | none => st
    else st
  let st₂ :=
    match searchRange firstCol with
    | some (lo, hi) =>
      if 35 ≤ digitsVal lo.data then { st₁ with age := some ("Masters " ++ lo) }
      else { st₁ with age := some ("U" ++ hi) }
    | none => st₁
  if hasSubStr "kg" lower then
    match searchKg lower with
    | some num => { st₂ with wc := some (num ++ " kg") }
    | none => st₂
  else st₂

/-- The lift-value read of a lift row: column index 3, empty cells and
`ValueError`s giving `None`. -/
def liftRowValue (row : List String) : Option ℚ :=
  if row.length > 3 ∧ stripStr (cellAt row 3) ≠ "" then WSO.parseDec (stripStr (cellAt row 3))
  else none

/-- One iteration of the row loop of `_parse_tab_data`. -/
def vertStep (wso ageCategory gender : String) (st : VState) (iRow : Nat × List String) :
    VState :=
  let (i, row) := iRow
  if row.isEmpty then st
  else
    let firstCol := stripStr (cellAt row 0)
    let secondCol := stripStr (cellAt row 1)
    if firstCol = "" then st
    else if i = 0 ∧ hasSubStr "lift" (lowStr firstCol) then
      firstRowHeader firstCol st
    else if lowStr firstCol ∈ ["lift", "athlete", "team", "weight", "date", "meet", "location"] then
      st
    else if lowStr firstCol ∈ ["snatch", "clean & jerk", "clean and jerk", "c&j", "total"] then
      let wv := liftRowValue row
      let lt := lowStr firstCol
      if lt = "snatch" then { st with snatch := wv }
      else if lt = "clean & jerk" ∨ lt = "clean and jerk" ∨ lt = "c&j" then { st with cj := wv }
      else
        let st' := saveCurrent wso gender { st with total := wv }
        { st' with
          wc := none
          snatch := none
          cj := none
          total := none }
    else if hasSubStr "kg" (lowStr firstCol) then
      let st' := saveCurrent wso gender st
      { st' with
        wc := some firstCol
        snatch := none
        cj := none
        total := none }
    else if secondCol = "" then
      let parsed := parseAgeSubdivision ageCategory firstCol
      if parsed ≠ "" ∧ parsed ≠ firstCol then
        { st with
          age := some parsed
          wc := none }
      else st
    else st

/-- Run the `_parse_tab_data` row loop from an explicit scan state and
flush the trailing record (used both for the whole function and to
state scenarios that begin mid-scan). -/
def parseRowsFrom (wso ageCategory gender : String) (st : VState)
    (rows : List (List String)) : List VRec :=
  (saveCurrent wso gender (rows.enum.foldl (vertStep wso ageCategory gender) st)).recs

/-- The initial scan state: Junior and Senior tabs have no subdivisions,
so the category itself is the initial age subdivision. -/
def initState (ageCategory : String) : VState :=
  { age := if ageCategory = "Junior" ∨ ageCategory = "Senior" then some ageCategory else none
    wc := none
    snatch := none
    cj := none
    total := none
    recs := [] }

/-- Model of `_parse_tab_data`. -/
def parseTabData (wso ageCategory gender : String) (rows : List (List String)) : List VRec :=
  parseRowsFrom wso ageCategory gender (initState ageCategory) rows

end Scraper


/-! ## Concrete scenario inputs used by the claims -/

/-- The C1 scenario rows. -/
def c1Rows : List (List String) :=
  [["40kg"], ["Snatch", "", "", "55"], ["Clean & Jerk", "", "", "70"], ["Total", "", "", "125"]]

/-- Scan state with current age subdivision `"U13"` and nothing pending. -/
def c1Init : Scraper.VState :=
  { age := some "U13", wc := none, snatch := none, cj := none, total := none, recs := [] }

/-- The record the spec claims for the C1 scenario (weight class `"40"`). -/
def c1Claimed : Scraper.VRec := ⟨"Ohio", "U13", "Women", "40", some 55, some 70, some 125⟩

/-- The record the code actually produces for the C1 scenario: the raw
weight-class cell `"40kg"` is stored unstripped. -/
def c1Actual : Scraper.VRec := ⟨"Ohio", "U13", "Women", "40kg", some 55, some 70, some 125⟩

def c4r1 : Rec := ⟨"New Jersey", "Senior", "Men", "71", some 90, none, none⟩

def c4r2 : Rec := ⟨"New Jersey", "Senior", "Men", "71", none, some 117, some 203⟩

def c4l : List Rec := [c4r1, c4r2]

def c4k : RKey := ("New Jersey", "Senior", "Men", "71")

def c5rec : Rec := ⟨"Pennsylvania-West Virginia", "U13", "Men", "40", some 30, some 40, some 70⟩

/-- A scrape oracle whose Men tab succeeds and whose Women tab raises. -/
def c5fetch : String → String → String → Except String (List Rec) :=
  fun gender _ _ => if gender = "Men" then .ok [c5rec] else .error "HTTP 404"

def c5tabs : List (String × String × String) :=
  [("Men", "Youth", "908123897"), ("Women", "Youth", "1470799505")]

/-- The records of the tabs whose fetch succeeds (skipping unset gids
and failed tabs), in tab order — what an isolated multi-tab loop keeps. -/
def okTabRecords (fetchTab : String → String → Except String (List Rec))
    (tabs : List (String × Option String)) : List Rec :=
  (tabs.filterMap (fun tg =>
    match tg.2 with
    | none => none
    | some gid => (fetchTab tg.1 gid).toOption)).flatten

/-- A Florida-shaped scrape oracle with one failing tab, for the C5
witness. -/
def c5fetchF : String → String → Except String (List Rec) :=
  fun name _ => if name = "U13" then .ok [c5rec] else .error "HTTP 500"

def c5tabsF : List (String × Option String) :=
  [("U13", some "490899077"), ("U15", some "1300164988"), ("X", none)]

/-- One data row of the New Jersey layout, women's side populated. -/
def njRowW (wc sn cj tot : String) : List String :=
  ["rules", wc, "Athlete", "date", sn, cj, tot, "", "", "", "", "", "", ""]

/-- C7 scenario: a header row, a closed 81 kg class, then a blank
weight cell in the same (women's) column. -/
def c7Rows : List (List String) :=
  [List.replicate 14 "h", njRowW "81" "100" "120" "220", njRowW "" "90" "110" "200"]

/-- C10 witness rows: two snatch rows for the same key, the second with
an empty value cell. -/
def c10rows : List GAPNW.CsvRow :=
  [⟨"U15", "F", "", "59", "Snatch", "100"⟩, ⟨"U15", "F", "", "59", "Snatch", ""⟩]

def c10k : GAPNW.GKey := ("U15", "Women", "59")

end WSO

namespace WSO


/-- C1: on the scenario rows with current age subdivision `"U13"` and
gender `"Women"`, the vertical parser does NOT emit the claimed record
with weight class `"40"` — the raw cell `"40kg"` is kept. -/
theorem claim_C1_counterexample :
    Scraper.parseRowsFrom "Ohio" "Youth" "Women" c1Init c1Rows ≠ [c1Claimed] := by
  decide

/-- C1 (amended): the scenario yields exactly one record, identical to
the claimed one except that the weight class is the raw cell `"40kg"`. -/
theorem claim_C1 :
    Scraper.parseRowsFrom "Ohio" "Youth" "Women" c1Init c1Rows = [c1Actual] := by
  decide

/-- C2: with no stored record the classification is Insert; with a
stored record the three lift fields are compared pairwise under
`Option` equality, the diff list holds exactly the differing fields
with their old and new values, and the classification is Update exactly
when that list is non-empty; in particular stored (100, None, None)
against fresh (100, 120, 220) updates exactly cj and total. -/
theorem claim_C2 :
    (∀ fresh : Rec, classify fresh none = Classification.insert) ∧
    (∀ (fresh : Rec) (db : Stored),
      (diffFields db fresh = [] → classify fresh (some db) = .unchanged) ∧
      (diffFields db fresh ≠ [] → classify fresh (some db) = .update (diffFields db fresh)) ∧
      (∀ f old new, (f, old, new) ∈ diffFields db fresh ↔
        ((f = "snatch_record" ∧ old = db.snatch_record ∧ new = fresh.snatch_record ∧
            db.snatch_record ≠ fresh.snatch_record) ∨
         (f = "cj_record" ∧ old = db.cj_record ∧ new = fresh.cj_record ∧
            db.cj_record ≠ fresh.cj_record) ∨
         (f = "total_record" ∧ old = db.total_record ∧ new = fresh.total_record ∧
            db.total_record ≠ fresh.total_record)))) ∧
    classify ⟨"A", "Senior", "Men", "81", some 100, some 120, some 220⟩
        (some ⟨1, some 100, none, none⟩) =
      .update [("cj_record", none, some 120), ("total_record", none, some 220)] := by
  refine ⟨fun fresh => rfl, fun fresh db => ⟨?_, ?_, ?_⟩, by decide⟩
  · intro h; simp [classify, h]
  · intro h
    rcases h' : diffFields db fresh with _ | ⟨x, xs⟩
    · exact absurd h' h
    · simp [classify, h']
  · intro f old new
    unfold diffFields
    by_cases h1 : db.snatch_record = fresh.snatch_record <;>
      by_cases h2 : db.cj_record = fresh.cj_record <;>
        by_cases h3 : db.total_record = fresh.total_record <;>
          simp [h1, h2, h3]

/-- C2 witness: the diff list of the scenario pair is non-empty and the
classification is Update of exactly that list. -/
theorem claim_C2_witness :
    diffFields ⟨1, some 100, none, none⟩
        ⟨"A", "Senior", "Men", "81", some 100, some 120, some 220⟩ ≠ [] ∧
    classify ⟨"A", "Senior", "Men", "81", some 100, some 120, some 220⟩
        (some ⟨1, some 100, none, none⟩) =
      .update (diffFields ⟨1, some 100, none, none⟩
        ⟨"A", "Senior", "Men", "81", some 100, some 120, some 220⟩) :=
  ⟨by decide,
   (claim_C2.2.1 ⟨"A", "Senior", "Men", "81", some 100, some 120, some 220⟩
     ⟨1, some 100, none, none⟩).2.1 (by decide)⟩

/-- The multi-tab loop of Florida/New Jersey equals: drop tabs with no
gid or a failed fetch, keep everything else, generalised over the
accumulator. -/
theorem tabLoop_eq_okTabRecords (fetchTab : String → String → Except String (List Rec)) :
    ∀ (tabs : List (String × Option String)) (acc : List Rec),
      tabs.foldl
        (fun acc tg =>
          match tg.2 with
          | none => acc
          | some gid =>
            match fetchTab tg.1 gid with
            | .ok rs => acc ++ rs
            | .error _ => acc)
        acc = acc ++ okTabRecords fetchTab tabs := by
  intro tabs
  induction tabs with
  | nil => intro acc; simp [okTabRecords]
  | cons tg rest ih =>
    intro acc
    rcases tg with ⟨name, gid?⟩
    cases gid? with
    | none =>
      simp only [List.foldl_cons]
      rw [ih]
      simp [okTabRecords]
    | some gid =>
      cases hf : fetchTab name gid with
      | ok rs =>
        simp only [List.foldl_cons, hf]
        rw [ih]
        simp [okTabRecords, hf, Except.toOption, List.append_assoc]
      | error e =>
        simp only [List.foldl_cons, hf]
        rw [ih]
        simp [okTabRecords, hf, Except.toOption]

/-- C5: the claim fails for the PA-WV scraper — its tab loop has no
exception handling, so the Men tab's records, collectable on their own,
are lost when the Women tab's fetch raises. -/
theorem claim_C5_counterexample :
    PAWV.scrapeAllTabs c5fetch [("Men", "Youth", "908123897")] = .ok [c5rec] ∧
    PAWV.scrapeAllTabs c5fetch c5tabs = .error "HTTP 404" :=
  ⟨rfl, rfl⟩

/-- C5 (amended): in the Florida and New Jersey multi-tab scrapers a
tab whose fetch-or-parse raises is skipped and the other tabs' records
are still returned; the PA-WV scraper instead propagates the first
failing tab's exception, aborting the whole run. -/
theorem claim_C5 :
    (∀ (fetchTab : String → String → Except String (List Rec))
       (tabs : List (String × Option String)),
      Florida.scrapeSheetTabs fetchTab tabs = okTabRecords fetchTab tabs ∧
      NewJersey.scrapeSheetTabs fetchTab tabs = okTabRecords fetchTab tabs) ∧
    (∀ (scrapeTab : String → String → String → Except String (List Rec))
       (ts1 : List (String × String × String)) (t : String × String × String)
       (ts2 : List (String × String × String)) (e : String),
      (∀ t' ∈ ts1, ∃ rs, scrapeTab t'.1 t'.2.1 t'.2.2 = .ok rs) →
      scrapeTab t.1 t.2.1 t.2.2 = .error e →
      PAWV.scrapeAllTabs scrapeTab (ts1 ++ t :: ts2) = .error e) := by
  constructor
  · intro fetchTab tabs
    constructor
    · unfold Florida.scrapeSheetTabs
      rw [tabLoop_eq_okTabRecords]
      simp
    · unfold NewJersey.scrapeSheetTabs
      rw [tabLoop_eq_okTabRecords]
      simp
  · intro scrapeTab ts1 t ts2 e hok herr
    induction ts1 with
    | nil =>
      rcases t with ⟨g, a, gid⟩
      simp only [List.nil_append, PAWV.scrapeAllTabs]
      rw [herr]
    | cons t' rest ih =>
      rcases t' with ⟨g', a', gid'⟩
      obtain ⟨rs, hrs⟩ := hok ⟨g', a', gid'⟩ (by simp)
      have ih' := ih (fun x hx => hok x (List.mem_cons_of_mem _ hx))
      simp [PAWV.scrapeAllTabs, hrs, ih']

/-- C5 witness: the amended theorem applied to concrete oracles — a
Florida run with one failing tab and an unset gid still returns the
successful tab's records, and a PA-WV run with an erroring tab returns
that error. -/
theorem claim_C5_witness :
    (Florida.scrapeSheetTabs c5fetchF c5tabsF = okTabRecords c5fetchF c5tabsF ∧
      Florida.scrapeSheetTabs c5fetchF c5tabsF = [c5rec]) ∧
    (c5fetch "Women" "Youth" "1470799505" = .error "HTTP 404" ∧
      PAWV.scrapeAllTabs c5fetch ([("Men", "Youth", "908123897")] ++
        ("Women", "Youth", "1470799505") :: []) = .error "HTTP 404") :=
  ⟨⟨(claim_C5.1 c5fetchF c5tabsF).1, rfl⟩,
   ⟨rfl,
    claim_C5.2 c5fetch [("Men", "Youth", "908123897")] ("Women", "Youth", "1470799505") []
      "HTTP 404"
      (by
        intro t' ht
        obtain rfl := List.mem_singleton.mp ht
        exact ⟨[c5rec], rfl⟩)
      rfl⟩⟩

/-- C6: the flat-row weight-class derivation uses the maximum when
present (stripping `>` into a `+` suffix), promotes a lone minimum to
the open `min+` class, and drops rows with neither bound; the scenario
row (M40, M, min 81, no max, Total 220) yields exactly the record keyed
(Masters 40, Men, 81+) with total 220. -/
theorem claim_C6 :
    (∀ wmin wmax : String,
      (wmax ≠ "" → GAPNW.deriveWeightClass wmin wmax =
        some (if hasSubStr ">" wmax then removeGtStr wmax ++ "+" else wmax)) ∧
      (wmax = "" → wmin ≠ "" → GAPNW.deriveWeightClass wmin wmax = some (wmin ++ "+")) ∧
      (wmax = "" → wmin = "" → GAPNW.deriveWeightClass wmin wmax = none)) ∧
    (∀ row : GAPNW.CsvRow, stripStr row.bodyWeightMin = "" → stripStr row.bodyWeightMax = "" →
      GAPNW.rowContribution row = none) ∧
    GAPNW.scrapeRows "Georgia" [⟨"M40", "M", "81", "", "Total", "220"⟩] =
      [⟨"Georgia", "Masters 40", "Men", "81+", none, none, some 220⟩] := by
  refine ⟨fun wmin wmax => ⟨?_, ?_, ?_⟩, ?_, by decide⟩
  · intro h
    by_cases h' : wmin = "" <;> simp [GAPNW.deriveWeightClass, h, h']
  · intro h h'
    simp [GAPNW.deriveWeightClass, h, h']
  · intro h h'
    simp [GAPNW.deriveWeightClass, h, h']
  · intro row h1 h2
    unfold GAPNW.rowContribution
    rw [h1, h2]
    simp only [GAPNW.deriveWeightClass]
    split
    · rfl
    · split <;> simp

/-- C6 witness: the derivation clauses applied at concrete bounds,
including a `>`-marked maximum. -/
theorem claim_C6_witness :
    (">63" ≠ "" ∧ GAPNW.deriveWeightClass "" ">63" = some "63+") ∧
    (GAPNW.deriveWeightClass "81" "" = some "81+") ∧
    (GAPNW.deriveWeightClass "" "" = none) :=
  ⟨⟨by decide, ((claim_C6.1 "" ">63").1 (by decide)).trans (by decide)⟩,
   (claim_C6.1 "81" "").2.1 rfl (by decide),
   (claim_C6.1 "" "").2.2 rfl rfl⟩

/-- C8: the claim fails — the TN-KY age normalizer has no rule for a
`14-15` youth band: the header yields no category at all, not `U15`. -/
theorem claim_C8_counterexample :
    TNKY.normalizeAgeCategory "YOUTH: WOMEN 14-15 YO" = (none, none) ∧
    (TNKY.normalizeAgeCategory "YOUTH: WOMEN 14-15 YO").1 ≠ some "U15" := by
  decide

/-- C8 (amended): the generic hyphen-range rule (Masters named by floor,
youth by ceiling) holds in the vertical scraper's
`parse_age_subdivision`; the PA-WV normalizer applies the Masters floor
rule only to parenthesized ranges and knows the fixed youth band
`14-15 → U15`; the TN-KY normalizer applies the floor rule to headers
containing MASTER and knows only the fixed youth bands 13-and-under and
`14-17 → U17` (not `14-15`). -/
theorem claim_C8 :
    (∀ (text a b cat : String),
      hasSubStr "and under" (lowStr (stripStr text)) = false →
      splitOnStr "-" (stripStr text) = [a, b] →
      Scraper.parseAgeSubdivision "Masters" text = "Masters " ++ stripStr a ∧
      (cat ≠ "Masters" → Scraper.parseAgeSubdivision cat text = "U" ++ stripStr b)) ∧
    PAWV.normalizeAgeCategory "Women's Masters (35-39)" "Masters" = some "Masters 35" ∧
    PAWV.normalizeAgeCategory "Men's 14-15 Age Group" "Youth" = some "U15" ∧
    PAWV.normalizeAgeCategory "Masters 35-39" "Masters" = none ∧
    TNKY.normalizeAgeCategory "MASTERS: MEN 35-39 years old" =
      (some "Masters 35", some "Men") ∧
    TNKY.normalizeAgeCategory "YOUTH: WOMEN 14-17 YO" = (some "U17", some "Women") := by
  refine ⟨?_, by decide, by decide, by decide, by decide, by decide⟩
  intro text a b cat h1 h2
  constructor
  · simp [Scraper.parseAgeSubdivision, h1, h2]
  · intro hc
    simp [Scraper.parseAgeSubdivision, h1, h2, hc]

/-- C8 witness: the general rule applied at `"35-39"` in the Masters
context and `"14-15"` in the Youth context. -/
theorem claim_C8_witness :
    (splitOnStr "-" (stripStr "35-39") = ["35", "39"] ∧
      Scraper.parseAgeSubdivision "Masters" "35-39" = "Masters 35") ∧
    (splitOnStr "-" (stripStr "14-15") = ["14", "15"] ∧
      Scraper.parseAgeSubdivision "Youth" "14-15" = "U15") :=
  ⟨⟨by decide,
    ((claim_C8.1 "35-39" "35" "39" "Youth" (by decide) (by decide)).1).trans (by decide)⟩,
   ⟨by decide,
    ((claim_C8.1 "14-15" "14" "15" "Youth" (by decide) (by decide)).2 (by decide)).trans
      (by decide)⟩⟩


/-- One reconciliation step appends its one classification to the
accumulator, so stepping is accumulator-homomorphic. -/
theorem compareStep_split (store : RKey → Option Stored) (acc : CompareResult) (r : Rec) :
    compareStep store acc r =
      appendCompareResult acc (compareStep store emptyCompareResult r) := by
  unfold compareStep
  cases classify r (store (recKey r)) <;> cases acc <;>
    simp [appendCompareResult, emptyCompareResult]

theorem appendCR_empty_right (a : CompareResult) :
    appendCompareResult a emptyCompareResult = a := by
  cases a
  simp [appendCompareResult, emptyCompareResult]

theorem appendCR_assoc (a b c : CompareResult) :
    appendCompareResult (appendCompareResult a b) c =
      appendCompareResult a (appendCompareResult b c) := by
  cases a
  cases b
  cases c
  simp [appendCompareResult]

/-- The reconciliation loop over any accumulator splits off the
accumulator. -/
theorem foldl_compareStep (store : RKey → Option Stored) :
    ∀ (l : List Rec) (acc : CompareResult),
      l.foldl (compareStep store) acc = appendCompareResult acc (dryRunCompare l store) := by
  intro l
  induction l with
  | nil => intro acc; simp [dryRunCompare, appendCR_empty_right]
  | cons r t ih =>
    intro acc
    have h2 : dryRunCompare (r :: t) store =
        appendCompareResult (compareStep store emptyCompareResult r) (dryRunCompare t store) := by
      unfold dryRunCompare
      simp only [List.foldl_cons]
      exact ih (compareStep store emptyCompareResult r)
    simp only [List.foldl_cons]
    rw [ih (compareStep store acc r), compareStep_split store acc r, appendCR_assoc, ← h2]

/-- C9: reconciliation is a pure function of the (fresh, stored) pair —
re-running it on the same inputs gives the same result, classifying a
batch splits over concatenation (so each record's classification is
independent of the rest of the batch and of call order), and each
single classification depends only on the record and its store lookup. -/
theorem claim_C9 :
    ∀ (records : List Rec) (store : RKey → Option Stored),
      dryRunCompare records store = dryRunCompare records store ∧
      (∀ l₁ l₂ : List Rec, dryRunCompare (l₁ ++ l₂) store =
        appendCompareResult (dryRunCompare l₁ store) (dryRunCompare l₂ store)) ∧
      (∀ fresh : Rec,
        classify fresh (store (recKey fresh)) = classify fresh (store (recKey fresh))) := by
  intro records store
  refine ⟨rfl, ?_, fun fresh => rfl⟩
  intro l₁ l₂
  unfold dryRunCompare
  rw [List.foldl_append]
  exact foldl_compareStep store l₂ _

/-- C7: in the side-by-side parsers a blank weight cell with a tracked
last closed class synthesizes the open class by appending `+` (New
Jersey and Florida alike); the tracker is only replaced by a non-`+`
class; the women's tracker is only updated from the women's side (and
never on the men-only Masters 80 tab); and concretely a blank cell
right after a closed `81` yields `81+`. -/
theorem claim_C7 :
    (∀ (wso : String) (row : List String) (off : Nat) (gender cat lw : String),
      stripStr (cellAt row off) = "" →
      ∃ r, NewJersey.parseSingleSide wso row off gender cat (some lw) = some r ∧
        r.weight_class = lw ++ "+") ∧
    (∀ (wso : String) (row : List String) (off : Nat) (gender baseAge : String)
       (i : Nat) (rows : List (List String)) (lw : String),
      stripStr (cellAt row off) = "" →
      ∃ r, Florida.parseSide wso row off gender baseAge i rows (some lw) = some r ∧
        r.weight_class = lw ++ "+") ∧
    (∀ (last : Option String) (r : Rec),
      NewJersey.updateLast last r = last ∨
      (r.weight_class ≠ "" ∧ ¬ endsWithPlus r.weight_class ∧
        NewJersey.updateLast last r = some r.weight_class)) ∧
    (∀ (wso tab : String) (st : NewJersey.NjState) (i : Nat) (row : List String),
      tab ≠ "Masters 80" →
      ((NewJersey.njStep wso tab st (i, row)).lastWomen = st.lastWomen ∨
        ∃ r, NewJersey.parseSingleSide wso row 1 "Women" tab st.lastWomen = some r ∧
          (NewJersey.njStep wso tab st (i, row)).lastWomen =
            NewJersey.updateLast st.lastWomen r)) ∧
    (∀ (wso : String) (st : NewJersey.NjState) (i : Nat) (row : List String),
      (NewJersey.njStep wso "Masters 80" st (i, row)).lastWomen = st.lastWomen) ∧
    NewJersey.parseSideBySide "New Jersey" c7Rows "Senior" =
      [⟨"New Jersey", "Senior", "Women", "81", some 100, some 120, some 220⟩,
       ⟨"New Jersey", "Senior", "Women", "81+", some 90, some 110, some 200⟩] := by
  refine ⟨?_, ?_, ?_, ?_, ?_, by decide⟩
  · intro wso row off gender cat lw h
    simp only [NewJersey.parseSingleSide, h]
    exact ⟨_, rfl, rfl⟩
  · intro wso row off gender baseAge i rows lw h
    simp only [Florida.parseSide, h]
    exact ⟨_, rfl, rfl⟩
  · intro last r
    unfold NewJersey.updateLast
    split
    · next h => exact Or.inr ⟨h.1, h.2, rfl⟩
    · exact Or.inl rfl
  · intro wso tab st i row htab
    by_cases hrow : (row.isEmpty = true ∨ row.length < 14)
    · exact Or.inl (by simp only [NewJersey.njStep, if_pos hrow])
    by_cases hi : i = 0
    · exact Or.inl (by simp only [NewJersey.njStep, if_neg hrow, if_pos hi])
    simp only [NewJersey.njStep, if_neg hrow, if_neg hi, if_neg htab]
    cases hw : NewJersey.parseSingleSide wso row 1 "Women" tab st.lastWomen with
    | none =>
      refine Or.inl ?_
      cases hm : NewJersey.parseSingleSide wso row 8 "Men" tab st.lastMen <;>
        simp [hm]
    | some r =>
      refine Or.inr ⟨r, rfl, ?_⟩
      cases hm : NewJersey.parseSingleSide wso row 8 "Men" tab st.lastMen <;>
        simp [hm]
  · intro wso st i row
    by_cases hrow : (row.isEmpty = true ∨ row.length < 14)
    · simp only [NewJersey.njStep, if_pos hrow]
    by_cases hi : i = 0
    · simp only [NewJersey.njStep, if_neg hrow, if_pos hi]
    simp only [NewJersey.njStep, if_neg hrow, if_neg hi, if_pos rfl]
    cases hm : NewJersey.parseSingleSide wso row 1 "Men" "Masters 80" st.lastMen <;>
      simp [hm]

/-- C7 witness: the synthesis clauses applied to the scenario's blank
row with tracked last class `"81"`. -/
theorem claim_C7_witness :
    (stripStr (cellAt (njRowW "" "90" "110" "200") 1) = "" ∧
      ∃ r, NewJersey.parseSingleSide "New Jersey" (njRowW "" "90" "110" "200") 1 "Women"
          "Senior" (some "81") = some r ∧ r.weight_class = "81" ++ "+") ∧
    (∃ r, Florida.parseSide "Florida" (List.replicate 12 "") 6 "Women" "Senior" 3 [] (some "81")
        = some r ∧ r.weight_class = "81" ++ "+") :=
  ⟨⟨by decide,
    claim_C7.1 "New Jersey" (njRowW "" "90" "110" "200") 1 "Women" "Senior" "81" (by decide)⟩,
   claim_C7.2.1 "Florida" (List.replicate 12 "") 6 "Women" "Senior" 3 [] "81" (by decide)⟩


theorem bestLift_singleton (v : Option Int) : NewJersey.bestLift [v] = v := by
  cases v <;> rfl

theorem foldl_optMaxStep_some (l : List Int) : ∀ v : Int,
    l.foldl NewJersey.optMaxStep (some v) = some (l.foldl max v) := by
  induction l with
  | nil => intro v; rfl
  | cons x xs ih =>
    intro v
    simp only [List.foldl_cons]
    rw [show NewJersey.optMaxStep (some v) x = some (max v x) from rfl, ih]

theorem bestLift_eq_foldl (vs : List (Option Int)) :
    NewJersey.bestLift vs = (vs.filterMap id).foldl NewJersey.optMaxStep none := by
  unfold NewJersey.bestLift
  cases h : vs.filterMap id with
  | nil => rfl
  | cons v rest =>
    simp only [List.foldl_cons]
    rw [show NewJersey.optMaxStep none v = some v from rfl, foldl_optMaxStep_some]

theorem optMaxStep_comm (acc : Option Int) (x y : Int) :
    NewJersey.optMaxStep (NewJersey.optMaxStep acc x) y =
      NewJersey.optMaxStep (NewJersey.optMaxStep acc y) x := by
  cases acc with
  | none => simp only [NewJersey.optMaxStep]; rw [max_comm]
  | some m =>
    simp only [NewJersey.optMaxStep]
    rw [max_assoc, max_comm x, ← max_assoc]

theorem foldl_optMaxStep_perm {l₁ l₂ : List Int} (h : l₁.Perm l₂) :
    ∀ acc, l₁.foldl NewJersey.optMaxStep acc = l₂.foldl NewJersey.optMaxStep acc := by
  induction h with
  | nil => intro acc; rfl
  | cons x _ ih =>
    intro acc
    simp only [List.foldl_cons]
    exact ih _
  | swap x y l =>
    intro acc
    simp only [List.foldl_cons]
    rw [optMaxStep_comm]
  | trans _ _ ih₁ ih₂ =>
    intro acc
    rw [ih₁, ih₂]

theorem bestLift_perm {vs₁ vs₂ : List (Option Int)} (h : vs₁.Perm vs₂) :
    NewJersey.bestLift vs₁ = NewJersey.bestLift vs₂ := by
  rw [bestLift_eq_foldl, bestLift_eq_foldl]
  exact foldl_optMaxStep_perm (h.filterMap id) none

theorem mergeGroup_fields (k : RKey) (g : List Rec) :
    (NewJersey.mergeGroup k g).snatch_record =
      NewJersey.bestLift (g.map (·.snatch_record)) ∧
    (NewJersey.mergeGroup k g).cj_record =
      NewJersey.bestLift (g.map (·.cj_record)) ∧
    (NewJersey.mergeGroup k g).total_record =
      NewJersey.bestLift (g.map (·.total_record)) := by
  rcases g with _ | ⟨r, _ | ⟨b, t⟩⟩
  · exact ⟨rfl, rfl, rfl⟩
  · exact ⟨(bestLift_singleton r.snatch_record).symm, (bestLift_singleton r.cj_record).symm,
      (bestLift_singleton r.total_record).symm⟩
  · exact ⟨rfl, rfl, rfl⟩

theorem mergeGroup_perm (k : RKey) {g g' : List Rec} (h : g.Perm g') :
    NewJersey.mergeGroup k g = NewJersey.mergeGroup k g' := by
  rcases g with _ | ⟨r, _ | ⟨b, t⟩⟩
  · rw [h.symm.eq_nil]
  · rw [List.singleton_perm.mp h]
  · have hlen := h.length_eq
    rcases g' with _ | ⟨x, _ | ⟨y, t'⟩⟩
    · simp at hlen
    · simp at hlen
    · have hs := bestLift_perm (h.map (·.snatch_record))
      have hc := bestLift_perm (h.map (·.cj_record))
      have ht := bestLift_perm (h.map (·.total_record))
      have f1 := mergeGroup_fields k (r :: b :: t)
      have f2 := mergeGroup_fields k (x :: y :: t')
      ext : 1
      · rfl
      · rfl
      · rfl
      · rfl
      · rw [f1.1, f2.1]; exact hs
      · rw [f1.2.1, f2.2.1]; exact hc
      · rw [f1.2.2, f2.2.2]; exact ht

theorem keysOf_aux_mem (l : List Rec) : ∀ (acc : List RKey) (k : RKey),
    (k ∈ l.foldl (fun ks r => if recKey r ∈ ks then ks else ks ++ [recKey r]) acc) ↔
      k ∈ acc ∨ k ∈ l.map recKey := by
  induction l with
  | nil =>
    intro acc k
    simp
  | cons r t ih =>
    intro acc k
    simp only [List.foldl_cons, List.map_cons, List.mem_cons]
    by_cases h : recKey r ∈ acc
    · rw [if_pos h, ih]
      constructor
      · rintro (ha | hm)
        · exact Or.inl ha
        · exact Or.inr (Or.inr hm)
      · rintro (ha | rfl | hm)
        · exact Or.inl ha
        · exact Or.inl h
        · exact Or.inr hm
    · rw [if_neg h, ih]
      simp only [List.mem_append, List.mem_singleton]
      tauto

theorem mem_keysOf (l : List Rec) (k : RKey) :
    k ∈ NewJersey.keysOf l ↔ k ∈ l.map recKey := by
  unfold NewJersey.keysOf
  rw [keysOf_aux_mem]
  simp

theorem keysOf_aux_nodup (l : List Rec) : ∀ acc : List RKey, acc.Nodup →
    (l.foldl (fun ks r => if recKey r ∈ ks then ks else ks ++ [recKey r]) acc).Nodup := by
  induction l with
  | nil => intro acc h; exact h
  | cons r t ih =>
    intro acc h
    simp only [List.foldl_cons]
    by_cases hm : recKey r ∈ acc
    · rw [if_pos hm]
      exact ih acc h
    · rw [if_neg hm]
      apply ih
      simp [List.nodup_append, h, hm]

theorem keysOf_nodup (l : List Rec) : (NewJersey.keysOf l).Nodup :=
  keysOf_aux_nodup l [] List.nodup_nil

theorem recKey_mem_groupOf {l : List Rec} {k : RKey} {r : Rec}
    (h : r ∈ NewJersey.groupOf l k) : recKey r = k := by
  unfold NewJersey.groupOf at h
  rw [List.mem_filter] at h
  exact of_decide_eq_true h.2

theorem groupOf_ne_nil {l : List Rec} {k : RKey} (h : k ∈ NewJersey.keysOf l) :
    NewJersey.groupOf l k ≠ [] := by
  rw [mem_keysOf] at h
  obtain ⟨r, hr, hk⟩ := List.mem_map.mp h
  intro hnil
  have hmem : r ∈ NewJersey.groupOf l k := by
    unfold NewJersey.groupOf
    rw [List.mem_filter]
    exact ⟨hr, by simp [hk]⟩
  rw [hnil] at hmem
  exact absurd hmem (List.not_mem_nil r)

theorem recKey_mergeGroup {l : List Rec} {k : RKey} (h : k ∈ NewJersey.keysOf l) :
    recKey (NewJersey.mergeGroup k (NewJersey.groupOf l k)) = k := by
  rcases hg : NewJersey.groupOf l k with _ | ⟨r, _ | ⟨b, t⟩⟩
  · exact absurd hg (groupOf_ne_nil h)
  · rw [show NewJersey.mergeGroup k [r] = r from rfl]
    exact recKey_mem_groupOf (by rw [hg]; exact List.mem_singleton_self r)
  · rfl

theorem filter_eq_singleton_of_nodup {ks : List RKey} (h : ks.Nodup) {k : RKey} (hm : k ∈ ks) :
    ks.filter (fun x => x = k) = [k] := by
  induction ks with
  | nil => cases hm
  | cons a t ih =>
    rw [List.filter_cons]
    rcases List.mem_cons.mp hm with rfl | hmt
    · rw [if_pos (by simp)]
      have hk : k ∉ t := (List.nodup_cons.mp h).1
      have ht : t.filter (fun x => decide (x = k)) = [] := by
        rw [List.filter_eq_nil_iff]
        intro x hx
        simp only [decide_eq_true_eq]
        rintro rfl
        exact hk hx
      rw [ht]
    · have ha : a ≠ k := fun e => (List.nodup_cons.mp h).1 (e ▸ hmt)
      rw [if_neg (by simp [ha])]
      exact ih (List.nodup_cons.mp h).2 hmt

theorem consolidate_filter (l : List Rec) (k : RKey) (h : k ∈ NewJersey.keysOf l) :
    (NewJersey.consolidateRecords l).filter (fun r => recKey r = k) =
      [NewJersey.mergeGroup k (NewJersey.groupOf l k)] := by
  unfold NewJersey.consolidateRecords
  rw [List.filter_map]
  have hcong : (NewJersey.keysOf l).filter
      ((fun r => decide (recKey r = k)) ∘
        (fun k' => NewJersey.mergeGroup k' (NewJersey.groupOf l k'))) =
      (NewJersey.keysOf l).filter (fun k' => decide (k' = k)) := by
    apply List.filter_congr
    intro x hx
    simp [Function.comp, recKey_mergeGroup hx]
  rw [hcong, filter_eq_singleton_of_nodup (keysOf_nodup l) h]
  rfl

/-- C4: consolidation emits exactly one record per natural key, whose
three lift fields are the per-field maxima of all non-absent values in
the key's group (absent if no contribution); a singleton group passes
through unchanged; and the per-key merged record is invariant under any
permutation of the input list. -/
theorem claim_C4 :
    ∀ (l : List Rec) (k : RKey), k ∈ NewJersey.keysOf l →
      ((NewJersey.consolidateRecords l).filter (fun r => recKey r = k) =
        [NewJersey.mergeGroup k (NewJersey.groupOf l k)]) ∧
      (∀ r, r ∈ NewJersey.consolidateRecords l → recKey r = k →
        r.snatch_record = NewJersey.bestLift ((NewJersey.groupOf l k).map (·.snatch_record)) ∧
        r.cj_record = NewJersey.bestLift ((NewJersey.groupOf l k).map (·.cj_record)) ∧
        r.total_record = NewJersey.bestLift ((NewJersey.groupOf l k).map (·.total_record))) ∧
      (∀ r0, NewJersey.groupOf l k = [r0] →
        NewJersey.mergeGroup k (NewJersey.groupOf l k) = r0) ∧
      (∀ l', l.Perm l' →
        NewJersey.mergeGroup k (NewJersey.groupOf l k) =
          NewJersey.mergeGroup k (NewJersey.groupOf l' k)) := by
  intro l k hk
  refine ⟨consolidate_filter l k hk, ?_, ?_, ?_⟩
  · intro r hr hkey
    have hmem : r ∈ (NewJersey.consolidateRecords l).filter (fun r => recKey r = k) := by
      rw [List.mem_filter]
      exact ⟨hr, by simp [hkey]⟩
    rw [consolidate_filter l k hk] at hmem
    obtain rfl := List.mem_singleton.mp hmem
    exact mergeGroup_fields k _
  · intro r0 h0
    rw [h0]
    rfl
  · intro l' hperm
    exact mergeGroup_perm k (by unfold NewJersey.groupOf; exact hperm.filter _)

/-- C4 witness: two partial records for the 71 kg Senior Men key merge
into one record taking the per-field maxima. -/
theorem claim_C4_witness :
    c4k ∈ NewJersey.keysOf c4l ∧
    ((NewJersey.consolidateRecords c4l).filter (fun r => recKey r = c4k) =
      [NewJersey.mergeGroup c4k (NewJersey.groupOf c4l c4k)]) ∧
    NewJersey.consolidateRecords c4l =
      [⟨"New Jersey", "Senior", "Men", "71", some 90, some 117, some 203⟩] :=
  ⟨by decide, (claim_C4 c4l c4k (by decide)).1, by decide⟩


theorem getLiftCol_setLiftCol_same (ls : GAPNW.Lifts) (col : GAPNW.LiftCol) (v : Option Int) :
    GAPNW.getLiftCol (GAPNW.setLiftCol ls col v) col = v := by
  cases col <;> rfl

theorem getLiftCol_setLiftCol_ne (ls : GAPNW.Lifts) (col col' : GAPNW.LiftCol)
    (v : Option Int) (h : col' ≠ col) :
    GAPNW.getLiftCol (GAPNW.setLiftCol ls col' v) col = GAPNW.getLiftCol ls col := by
  cases col <;> cases col' <;> first | rfl | exact absurd rfl h

theorem lookupG_nil (k : GAPNW.GKey) : GAPNW.lookupG [] k = none := rfl

theorem lookupG_cons_self (k : GAPNW.GKey) (ls : GAPNW.Lifts)
    (rest : List (GAPNW.GKey × GAPNW.Lifts)) :
    GAPNW.lookupG ((k, ls) :: rest) k = some ls := by
  unfold GAPNW.lookupG
  rw [List.find?_cons_of_pos _ (by simp)]
  rfl

theorem lookupG_cons_ne (k k' : GAPNW.GKey) (ls : GAPNW.Lifts)
    (rest : List (GAPNW.GKey × GAPNW.Lifts)) (h : k' ≠ k) :
    GAPNW.lookupG ((k', ls) :: rest) k = GAPNW.lookupG rest k := by
  unfold GAPNW.lookupG
  rw [List.find?_cons_of_neg _ (by simpa using h)]

theorem updateGrouped_nil (k : GAPNW.GKey) (col : GAPNW.LiftCol) (v : Option Int) :
    GAPNW.updateGrouped [] k col v = [(k, GAPNW.setLiftCol GAPNW.emptyLifts col v)] := rfl

theorem updateGrouped_cons_same (k : GAPNW.GKey) (ls : GAPNW.Lifts)
    (rest : List (GAPNW.GKey × GAPNW.Lifts)) (col : GAPNW.LiftCol) (v : Option Int) :
    GAPNW.updateGrouped ((k, ls) :: rest) k col v = (k, GAPNW.setLiftCol ls col v) :: rest := by
  unfold GAPNW.updateGrouped
  rw [if_pos rfl]

theorem updateGrouped_cons_ne (k k' : GAPNW.GKey) (ls : GAPNW.Lifts)
    (rest : List (GAPNW.GKey × GAPNW.Lifts)) (col : GAPNW.LiftCol) (v : Option Int)
    (h : k' ≠ k) :
    GAPNW.updateGrouped ((k', ls) :: rest) k col v =
      (k', ls) :: GAPNW.updateGrouped rest k col v := by
  show (if k' = k then (k', GAPNW.setLiftCol ls col v) :: rest
        else (k', ls) :: GAPNW.updateGrouped rest k col v) =
      (k', ls) :: GAPNW.updateGrouped rest k col v
  rw [if_neg h]

theorem processRow_none {g : List (GAPNW.GKey × GAPNW.Lifts)} {row : GAPNW.CsvRow}
    (h : GAPNW.rowContribution row = none) : GAPNW.processRow g row = g := by
  unfold GAPNW.processRow
  rw [h]

theorem processRow_some {g : List (GAPNW.GKey × GAPNW.Lifts)} {row : GAPNW.CsvRow}
    {k : GAPNW.GKey} {col : GAPNW.LiftCol} {v : Option Int}
    (h : GAPNW.rowContribution row = some (k, col, v)) :
    GAPNW.processRow g row = GAPNW.updateGrouped g k col v := by
  unfold GAPNW.processRow
  rw [h]

theorem lookupG_updateGrouped_same (g : List (GAPNW.GKey × GAPNW.Lifts)) (k : GAPNW.GKey)
    (col : GAPNW.LiftCol) (v : Option Int) :
    GAPNW.lookupG (GAPNW.updateGrouped g k col v) k =
      some (GAPNW.setLiftCol ((GAPNW.lookupG g k).getD GAPNW.emptyLifts) col v) := by
  induction g with
  | nil =>
    rw [updateGrouped_nil, lookupG_cons_self, lookupG_nil]
    rfl
  | cons kl rest ih =>
    rcases kl with ⟨k', ls⟩
    by_cases h : k' = k
    · subst h
      rw [updateGrouped_cons_same, lookupG_cons_self, lookupG_cons_self]
      rfl
    · rw [updateGrouped_cons_ne _ _ _ _ _ _ h, lookupG_cons_ne _ _ _ _ h,
        lookupG_cons_ne _ _ _ _ h, ih]

theorem lookupG_updateGrouped_ne (g : List (GAPNW.GKey × GAPNW.Lifts)) (k k' : GAPNW.GKey)
    (col : GAPNW.LiftCol) (v : Option Int) (h : k' ≠ k) :
    GAPNW.lookupG (GAPNW.updateGrouped g k' col v) k = GAPNW.lookupG g k := by
  induction g with
  | nil =>
    rw [updateGrouped_nil, lookupG_cons_ne _ _ _ _ h]
  | cons kl rest ih =>
    rcases kl with ⟨k'', ls⟩
    by_cases h2 : k'' = k'
    · subst h2
      rw [updateGrouped_cons_same, lookupG_cons_ne _ _ _ _ h, lookupG_cons_ne _ _ _ _ h]
    · rw [updateGrouped_cons_ne _ _ _ _ _ _ h2]
      by_cases h3 : k'' = k
      · subst h3
        rw [lookupG_cons_self, lookupG_cons_self]
      · rw [lookupG_cons_ne _ _ _ _ h3, lookupG_cons_ne _ _ _ _ h3, ih]

theorem grouped_lookup_getLast (k : GAPNW.GKey) (col : GAPNW.LiftCol) :
    ∀ rows : List GAPNW.CsvRow, GAPNW.contributionsFor rows k col ≠ [] →
      ∃ ls, GAPNW.lookupG (rows.foldl GAPNW.processRow []) k = some ls ∧
        some (GAPNW.getLiftCol ls col) = (GAPNW.contributionsFor rows k col).getLast? := by
  intro rows
  induction rows using List.reverseRecOn with
  | nil => intro h; exact absurd rfl h
  | append_singleton rs row ih =>
    intro h
    rw [List.foldl_append]
    simp only [List.foldl_cons, List.foldl_nil]
    have hc : GAPNW.contributionsFor (rs ++ [row]) k col =
        GAPNW.contributionsFor rs k col ++ GAPNW.contributionsFor [row] k col := by
      unfold GAPNW.contributionsFor
      rw [List.filterMap_append]
    cases hrc : GAPNW.rowContribution row with
    | none =>
      have hone : GAPNW.contributionsFor [row] k col = [] := by
        unfold GAPNW.contributionsFor
        simp [hrc]
      rw [hc, hone, List.append_nil] at h ⊢
      obtain ⟨ls, hls, hlast⟩ := ih h
      rw [processRow_none hrc]
      exact ⟨ls, hls, hlast⟩
    | some kcv =>
      rcases kcv with ⟨k', col', v⟩
      rw [processRow_some hrc]
      by_cases hmatch : k' = k ∧ col' = col
      · obtain ⟨rfl, rfl⟩ := hmatch
        have hone : GAPNW.contributionsFor [row] k' col' = [v] := by
          unfold GAPNW.contributionsFor
          simp [hrc]
        rw [hc, hone]
        refine ⟨GAPNW.setLiftCol ((GAPNW.lookupG (rs.foldl GAPNW.processRow []) k').getD
          GAPNW.emptyLifts) col' v, ?_, ?_⟩
        · exact lookupG_updateGrouped_same _ _ _ _
        · rw [getLiftCol_setLiftCol_same, List.getLast?_concat]
      · have hone : GAPNW.contributionsFor [row] k col = [] := by
          unfold GAPNW.contributionsFor
          simp [hrc, hmatch]
        rw [hc, hone, List.append_nil] at h ⊢
        obtain ⟨ls, hls, hlast⟩ := ih h
        by_cases hk : k' = k
        · subst hk
          have hcol : col' ≠ col := fun e => hmatch ⟨rfl, e⟩
          refine ⟨GAPNW.setLiftCol ls col' v, ?_, ?_⟩
          · rw [lookupG_updateGrouped_same, hls]
            rfl
          · rw [getLiftCol_setLiftCol_ne _ _ _ _ hcol]
            exact hlast
        · exact ⟨ls, by rw [lookupG_updateGrouped_ne _ _ _ _ _ hk]; exact hls, hlast⟩

theorem gkeys_updateGrouped (g : List (GAPNW.GKey × GAPNW.Lifts)) (k : GAPNW.GKey)
    (col : GAPNW.LiftCol) (v : Option Int) :
    (GAPNW.updateGrouped g k col v).map Prod.fst =
      if k ∈ g.map Prod.fst then g.map Prod.fst else g.map Prod.fst ++ [k] := by
  induction g with
  | nil => simp [updateGrouped_nil]
  | cons kl rest ih =>
    rcases kl with ⟨k', ls⟩
    by_cases h : k' = k
    · subst h
      rw [updateGrouped_cons_same]
      simp
    · rw [updateGrouped_cons_ne _ _ _ _ _ _ h]
      simp only [List.map_cons, List.mem_cons]
      rw [ih]
      by_cases hm : k ∈ rest.map Prod.fst
      · rw [if_pos hm, if_pos (Or.inr hm)]
      · rw [if_neg hm, if_neg ?_]
        · rfl
        · rintro (e | e)
          · exact h e.symm
          · exact hm e

theorem grouped_keys_nodup : ∀ rows : List GAPNW.CsvRow,
    ((rows.foldl GAPNW.processRow []).map Prod.fst).Nodup := by
  intro rows
  induction rows using List.reverseRecOn with
  | nil => exact List.nodup_nil
  | append_singleton rs row ih =>
    rw [List.foldl_append]
    simp only [List.foldl_cons, List.foldl_nil]
    cases hrc : GAPNW.rowContribution row with
    | none =>
      rw [processRow_none hrc]
      exact ih
    | some kcv =>
      rcases kcv with ⟨k, col, v⟩
      rw [processRow_some hrc, gkeys_updateGrouped]
      by_cases hm : k ∈ ((rs.foldl GAPNW.processRow []).map Prod.fst)
      · rw [if_pos hm]
        exact ih
      · rw [if_neg hm]
        simp [List.nodup_append, ih, hm]

theorem lookupG_of_mem {g : List (GAPNW.GKey × GAPNW.Lifts)}
    (hnd : (g.map Prod.fst).Nodup) {kl : GAPNW.GKey × GAPNW.Lifts} (hm : kl ∈ g) :
    GAPNW.lookupG g kl.1 = some kl.2 := by
  induction g with
  | nil => cases hm
  | cons a rest ih =>
    rcases List.mem_cons.mp hm with rfl | hmr
    · rcases kl with ⟨k1, ls1⟩
      exact lookupG_cons_self k1 ls1 rest
    · have hne : a.1 ≠ kl.1 := by
        intro e
        have hmem : kl.1 ∈ rest.map Prod.fst := List.mem_map_of_mem _ hmr
        rw [← e] at hmem
        exact (List.nodup_cons.mp (by simpa using hnd)).1 hmem
      rcases a with ⟨a1, als⟩
      rw [lookupG_cons_ne _ _ _ _ hne]
      exact ih (List.nodup_cons.mp (by simpa using hnd)).2 hmr

theorem mem_of_lookupG {g : List (GAPNW.GKey × GAPNW.Lifts)} {k : GAPNW.GKey}
    {ls : GAPNW.Lifts} (h : GAPNW.lookupG g k = some ls) : (k, ls) ∈ g := by
  unfold GAPNW.lookupG at h
  obtain ⟨kl, hfind, h2⟩ := Option.map_eq_some'.mp h
  have hp := List.find?_some hfind
  have hmem := List.mem_of_find?_eq_some hfind
  have hk : kl.1 = k := of_decide_eq_true hp
  have hkl : kl = (k, ls) := by
    rcases kl with ⟨k1, ls1⟩
    simp only at hk h2
    rw [hk, h2]
  rw [← hkl]
  exact hmem

/-- C10: in the flat-row parser, when several rows contribute to the
same key and lift slot, the emitted record for that key exists and its
value for that slot is the value parsed from the last contributing row
in input order — possibly absent, overwriting earlier values. -/
theorem claim_C10 :
    ∀ (wso : String) (rows : List GAPNW.CsvRow) (k : GAPNW.GKey) (col : GAPNW.LiftCol),
      GAPNW.contributionsFor rows k col ≠ [] →
      (∃ r, r ∈ GAPNW.scrapeRows wso rows ∧ GAPNW.keyTriple r = k) ∧
      (∀ r, r ∈ GAPNW.scrapeRows wso rows → GAPNW.keyTriple r = k →
        some (GAPNW.liftField col r) = (GAPNW.contributionsFor rows k col).getLast?) := by
  intro wso rows k col h
  obtain ⟨ls, hls, hlast⟩ := grouped_lookup_getLast k col rows h
  constructor
  · refine ⟨GAPNW.recOfEntry wso (k, ls), ?_, rfl⟩
    unfold GAPNW.scrapeRows
    exact List.mem_map_of_mem _ (mem_of_lookupG hls)
  · intro r hr hkey
    unfold GAPNW.scrapeRows at hr
    obtain ⟨kl, hkl, rfl⟩ := List.mem_map.mp hr
    have hk1 : kl.1 = k := hkey
    have hlk : GAPNW.lookupG (rows.foldl GAPNW.processRow []) kl.1 = some kl.2 :=
      lookupG_of_mem (grouped_keys_nodup rows) hkl
    rw [hk1, hls] at hlk
    have hls2 : kl.2 = ls := (Option.some.injEq _ _).mp hlk.symm
    have hfield : GAPNW.liftField col (GAPNW.recOfEntry wso kl) =
        GAPNW.getLiftCol kl.2 col := by
      cases col <;> rfl
    rw [hfield, hls2]
    exact hlast

/-- C10 witness: two snatch rows for the same key, the second with an
empty value cell — the emitted snatch is absent, the last row's parse. -/
theorem claim_C10_witness :
    GAPNW.contributionsFor c10rows c10k GAPNW.LiftCol.snatch ≠ [] ∧
    GAPNW.contributionsFor c10rows c10k GAPNW.LiftCol.snatch = [some 100, none] ∧
    (∃ r, r ∈ GAPNW.scrapeRows "DMV" c10rows ∧ GAPNW.keyTriple r = c10k) ∧
    (∀ r, r ∈ GAPNW.scrapeRows "DMV" c10rows → GAPNW.keyTriple r = c10k →
      some (GAPNW.liftField GAPNW.LiftCol.snatch r) =
        (GAPNW.contributionsFor c10rows c10k GAPNW.LiftCol.snatch).getLast?) :=
  ⟨by decide, by decide,
   (claim_C10 "DMV" c10rows c10k GAPNW.LiftCol.snatch (by decide)).1,
   (claim_C10 "DMV" c10rows c10k GAPNW.LiftCol.snatch (by decide)).2⟩

end WSO
